import Mathlib

/-!
Shallow embedding of the astra-cobalt-plugin file server (src/src/lib.rs).

The server reads one request per TCP connection: a 1-byte operation code,
then a newline-terminated path line (and, for operation 2, a second
newline-terminated glob line).  We model the byte stream after the operation
byte as text (a list of characters), the filesystem as an oracle record,
and the bytes written back to the connection as a list of natural numbers,
each standing for one byte.
-/

namespace Astra

/-- Big-endian byte encoding of a natural number in `w` bytes, the model of
Rust's `usize::to_be_bytes` (8 bytes on the target platform). -/
def toBeBytes : Nat → Nat → List Nat
  | 0, _ => []
  | w + 1, n => n / 256 ^ w % 256 :: toBeBytes w n

/-- Big-endian decoding accumulator. -/
def fromBeAux (acc : Nat) : List Nat → Nat
  | [] => acc
  | b :: rest => fromBeAux (acc * 256 + b) rest

/-- Big-endian decoding of a byte list into a natural number. -/
def fromBe (bs : List Nat) : Nat := fromBeAux 0 bs

/-- UTF-8 encoding of one character as bytes (model of Rust `str::as_bytes`
restricted to one scalar value). -/
def charUtf8 (c : Char) : List Nat :=
  let n := c.toNat
  if n < 0x80 then [n]
  else if n < 0x800 then [0xC0 + n / 64, 0x80 + n % 64]
  else if n < 0x10000 then [0xE0 + n / 4096, 0x80 + n / 64 % 64, 0x80 + n % 64]
  else [0xF0 + n / 262144, 0x80 + n / 4096 % 64, 0x80 + n / 64 % 64, 0x80 + n % 64]

/-- UTF-8 bytes of a string, the model of Rust `str::as_bytes`. -/
def strBytes (s : String) : List Nat := s.data.flatMap charUtf8

/-- Model of `BufRead::read_line` on the remaining stream text: the
returned line includes the terminating newline when one is present; if the
stream ends first, the partial text (possibly empty) is returned without
error, exactly as Rust's `read_line` behaves at end of stream. -/
def splitLine : List Char → List Char × List Char
  | [] => ([], [])
  | c :: rest =>
      if c = '\n' then ([c], rest)
      else
        let p := splitLine rest
        (c :: p.1, p.2)

/-- Whitespace test used by Rust's `str::trim` (the Unicode White_Space
property, `char::is_whitespace`). -/
def isRustWhitespace (c : Char) : Bool :=
  c.toNat = 0x09 || c.toNat = 0x0A || c.toNat = 0x0B || c.toNat = 0x0C ||
  c.toNat = 0x0D || c.toNat = 0x20 || c.toNat = 0x85 || c.toNat = 0xA0 ||
  c.toNat = 0x1680 || (0x2000 ≤ c.toNat && c.toNat ≤ 0x200A) ||
  c.toNat = 0x2028 || c.toNat = 0x2029 || c.toNat = 0x202F ||
  c.toNat = 0x205F || c.toNat = 0x3000

/-- Model of Rust `str::trim`: drop leading and trailing whitespace. -/
def trimChars (s : List Char) : List Char :=
  ((s.dropWhile isRustWhitespace).reverse.dropWhile isRustWhitespace).reverse

/-- Model of `str::replace` specialised to `replace('\\', "/")`. -/
def replaceBackslash (s : List Char) : List Char :=
  s.map fun c => if c = '\\' then '/' else c

/-- Resolved request path, the model of
`format!("rom:/Data/{}", path.trim().replace('\\', "/"))` (lib.rs line 76).
The argument is the raw path line as returned by `read_line`. -/
def resolvePath (line : List Char) : String :=
  "rom:/Data/" ++ String.mk (replaceBackslash (trimChars line))

/-- Character-level split of a string at the `/` separator. -/
def splitSlash : List Char → List (List Char)
  | [] => [[]]
  | c :: rest =>
      match splitSlash rest with
      | [] => [[]]
      | g :: gs => if c = '/' then [] :: g :: gs else (c :: g) :: gs

/-- Components of a path string, modelling `std::path::Path::iter` for the
forward-slash paths this server builds: split on the separator and drop
empty segments. -/
def pathComponents (s : String) : List String :=
  ((splitSlash s.data).filter (fun c => c ≠ [])).map String.mk

/-- A filesystem entry: a regular file (contents tracked separately by the
`Fs` oracle) or a directory with a list of named children in the order
`read_dir` yields them. -/
inductive FsEntry : Type
  | file : FsEntry
  | dir : List (String × FsEntry) → FsEntry
deriving Repr

/-- Model of `HashSet::insert` on the output collection: the element is added
only when not already present (we keep first-insertion order, which is one
admissible iteration order of the unordered set). -/
def insertPath (s : List (List String)) (x : List String) : List (List String) :=
  if x ∈ s then s else s ++ [x]

mutual

/-- Model of `list_files(dir, output)` (lib.rs lines 134-149) on the entry at
the walked path `p` (the components of the absolute path).  A non-directory
argument leaves the output untouched (`dir.is_dir()` is false).  For each
child, a directory is recursed into and anything else is inserted after
dropping the first two components of its absolute path
(`path.iter().skip(2).collect()`). -/
def list_files : List String → FsEntry → List (List String) → List (List String)
  | _, .file, out => out
  | p, .dir es, out => walk_entries p es out
/-- Body of the `for entry in std::fs::read_dir(dir)?` loop of `list_files`,
threading the `&mut output` accumulator left to right: the `path.is_dir()`
test of the source appears here as the match on the child's constructor —
a directory child is recursed into, any other child is inserted after
dropping the first two components of its absolute path. -/
def walk_entries : List String → List (String × FsEntry) → List (List String) →
    List (List String)
  | _, [], out => out
  | p, (n, .dir cs) :: rest, out =>
      walk_entries p rest (list_files (p ++ [n]) (.dir cs) out)
  | p, (n, .file) :: rest, out =>
      walk_entries p rest (insertPath out ((p ++ [n]).drop 2))
end

/-- Top of the walk as `process_request` invokes it: `list_files(&path, ...)`
on a path that may not exist at all (`none`), in which case `dir.is_dir()` is
false and the output stays empty. -/
def list_files_root (p : List String) (root : Option FsEntry) : List (List String) :=
  match root with
  | none => []
  | some e => list_files p e []

/-- Filesystem oracle seen by `process_request`: `exists_at` models
`Path::new(&path).exists()`, `read` models `std::fs::read(&path)` (the error
side carries the bytes of the debug-formatted `io::Error`), and `entry_at`
gives the directory tree rooted at a path string, for the walker. -/
structure Fs : Type where
  exists_at : String → Bool
  read : String → Except (List Nat) (List Nat)
  entry_at : String → Option FsEntry

/-- Errors `process_request` can return through `anyhow::Result`. -/
inductive ReqError : Type
  | eofOpByte : ReqError
  | unknownOperation : Nat → ReqError
  | ioRead : List Nat → ReqError
deriving Repr, DecidableEq

/-- Debug-formatted message bytes for each error, as `format!("{:?}", err)`
renders them in `write_error_to_stream`: `read_exact` at end of stream yields
the standard `UnexpectedEof` text, `bail!("Unknown operation {}", operation)`
yields that message, and a filesystem read error carries its own text. -/
def errorBytes : ReqError → List Nat
  | .eofOpByte => strBytes "failed to fill whole buffer"
  | .unknownOperation op => strBytes ("Unknown operation " ++ toString op)
  | .ioRead msg => msg

/-- Model of `process_request` (lib.rs lines 63-121).  The inputs are the
filesystem oracle, the operation byte (`none` when the connection closed
before one byte could be read, making `read_exact` fail), and the rest of
the stream as text.  The output is the list of bytes written to the
connection on success, or the error that `main` turns into an error frame.
Logging is side-effect only and is omitted. -/
def process_request (fs : Fs) (opByte : Option Nat) (rest : List Char) :
    Except ReqError (List Nat) :=
  match opByte with
  | none => .error .eofOpByte
  | some operation =>
      let pr := splitLine rest
      let path := resolvePath pr.1
      match operation with
      | 0 => .ok [if fs.exists_at path then 1 else 0]
      | 1 =>
          match fs.read path with
          | .error err => .error (.ioRead err)
          | .ok buffer => .ok (0 :: (toBeBytes 8 buffer.length ++ buffer))
      | 2 =>
          let globLine := (splitLine pr.2).1
          let _logGlob := path ++ "/" ++ String.mk globLine
          let paths := list_files_root (pathComponents path) (fs.entry_at path)
          .ok (0 :: (toBeBytes 8 paths.length ++
            paths.flatMap fun q => strBytes (String.intercalate "/" q) ++ [10]))
      | op => .error (.unknownOperation op)

/-- Model of `write_error_to_stream` (lib.rs lines 124-132): a status byte 1,
the 8-byte big-endian byte length of the debug-formatted message, then the
message bytes. -/
def write_error_to_stream (msg : List Nat) : List Nat :=
  1 :: (toBeBytes 8 msg.length ++ msg)

/-- One connection as `main`'s accept loop handles it: the bytes the client
sees are the success output of `process_request`, or the error frame written
by `write_error_to_stream` when it fails. -/
def handle_connection (fs : Fs) (opByte : Option Nat) (rest : List Char) : List Nat :=
  match process_request fs opByte rest with
  | .ok out => out
  | .error err => write_error_to_stream (errorBytes err)

/-- The sequential accept loop of `main`: each accepted connection is handled
to completion before the next, so the responses are the per-connection
results in order. -/
def serve (fs : Fs) (conns : List (Option Nat × List Char)) : List (List Nat) :=
  conns.map fun c => handle_connection fs c.1 c.2

/-- Modelled from the spec: the companion client's decoding of an error
response frame, which is not part of this repository.  Per the wire format,
the client reads the status byte, then an 8-byte big-endian length, then
exactly that many message bytes, returning the message and the unread
remainder of the stream. -/
def decode_error_response (bytes : List Nat) : Option (List Nat × List Nat) :=
  match bytes with
  | status :: rest =>
      if status = 1 ∧ 8 ≤ rest.length then
        let len := fromBe (rest.take 8)
        let body := rest.drop 8
        if len ≤ body.length then some (body.take len, body.drop len) else none
      else none
  | [] => none

mutual

/-- Specification-side description for the directory-listing claim: the
relative paths (component lists) of every regular file beneath an entry.
The root entry itself is never listed, matching the stated behaviour that
directories are never emitted and a non-directory root yields nothing. -/
def filesAt : FsEntry → List (List String)
  | .file => []
  | .dir es => filesAtEntries es
/-- Specification-side helper of `filesAt` over a child list. -/
def filesAtEntries : List (String × FsEntry) → List (List String)
  | [] => []
  | (n, .file) :: rest => [n] :: filesAtEntries rest
  | (n, .dir cs) :: rest =>
      (filesAt (.dir cs)).map (fun q => n :: q) ++ filesAtEntries rest
end

/-- Specification-side predicate: `rel` is the relative component path of a
regular file inside the entry. -/
inductive IsFilePath : FsEntry → List String → Prop
  | here {es : List (String × FsEntry)} {n : String}
      (h : (n, FsEntry.file) ∈ es) : IsFilePath (.dir es) [n]
  | there {es : List (String × FsEntry)} {n : String} {e : FsEntry}
      {rel : List String} (h : (n, e) ∈ es) (hrec : IsFilePath e rel) :
      IsFilePath (.dir es) (n :: rel)

mutual

/-- Fuel-instrumented copy of `list_files`: every recursive step consumes one
unit of fuel and exhausted fuel is reported as `none`.  This makes the
termination of the source recursion a provable statement: enough fuel always
exists for a finite tree. -/
def list_files_fuel : Nat → List String → FsEntry → List (List String) →
    Option (List (List String))
  | 0, _, _, _ => none
  | _ + 1, _, .file, out => some out
  | fuel + 1, p, .dir es, out => walk_entries_fuel fuel p es out

/-- Fuel-instrumented copy of `walk_entries`. -/
def walk_entries_fuel : Nat → List String → List (String × FsEntry) →
    List (List String) → Option (List (List String))
  | 0, _, _, _ => none
  | _ + 1, _, [], out => some out
  | fuel + 1, p, (n, .dir cs) :: rest, out =>
      match list_files_fuel fuel (p ++ [n]) (.dir cs) out with
      | none => none
      | some out' => walk_entries_fuel fuel p rest out'
  | fuel + 1, p, (n, .file) :: rest, out =>
      walk_entries_fuel fuel p rest (insertPath out ((p ++ [n]).drop 2))

end

mutual

/-- Number of recursion nodes of an entry, used to bound the fuel the
instrumented walker needs. -/
def entrySize : FsEntry → Nat
  | .file => 1
  | .dir es => entriesSize es + 1
/-- Number of recursion nodes of a child list. -/
def entriesSize : List (String × FsEntry) → Nat
  | [] => 1
  | (_, e) :: rest => entrySize e + entriesSize rest + 1
end

/-- Sample directory tree used in concrete witnesses. -/
def sampleTree : FsEntry :=
  .dir [("a.bin", .file), ("sub", .dir [("b.bin", .file)])]

/-- Filesystem with no entries at all. -/
def fsAbsent : Fs where
  exists_at := fun _ => false
  read := fun _ => .error (strBytes "No such file or directory (os error 2)")
  entry_at := fun _ => none

/-- Filesystem holding one readable file and one listable directory. -/
def fsSample : Fs where
  exists_at := fun p => p = "rom:/Data/units/a.bin"
  read := fun p =>
    if p = "rom:/Data/data/unit.bin" then .ok [7, 7, 7]
    else .error (strBytes "No such file or directory (os error 2)")
  entry_at := fun p => if p = "rom:/Data/units" then some sampleTree else none

theorem mem_insertPath (out : List (List String)) (y x : List String) :
    x ∈ insertPath out y ↔ x ∈ out ∨ x = y := by
  unfold insertPath
  by_cases h : y ∈ out
  · simp only [if_pos h]
    constructor
    · exact Or.inl
    · rintro (hx | rfl)
      · exact hx
      · exact h
  · simp [if_neg h]

mutual

theorem mem_list_files (p : List String) (e : FsEntry) (out : List (List String))
    (x : List String) :
    x ∈ list_files p e out ↔ x ∈ out ∨ ∃ rel ∈ filesAt e, x = (p ++ rel).drop 2 := by
  match e with
  | .file => simp [list_files, filesAt]
  | .dir es =>
      have h := mem_walk_entries p es out x
      simpa [list_files, filesAt] using h

theorem mem_walk_entries (p : List String) (es : List (String × FsEntry))
    (out : List (List String)) (x : List String) :
    x ∈ walk_entries p es out ↔
      x ∈ out ∨ ∃ rel ∈ filesAtEntries es, x = (p ++ rel).drop 2 := by
  match es with
  | [] => simp [walk_entries, filesAtEntries]
  | (n, .file) :: rest =>
      rw [walk_entries, mem_walk_entries p rest _ x, mem_insertPath]
      simp only [filesAtEntries, List.mem_cons, or_and_right, exists_or,
        exists_eq_left]
      tauto
  | (n, .dir cs) :: rest =>
      rw [walk_entries, mem_walk_entries p rest _ x,
        mem_list_files (p ++ [n]) (.dir cs) out x]
      simp only [filesAtEntries, List.mem_append, List.mem_map, or_and_right,
        exists_or]
      constructor
      · rintro ((hx | ⟨rel, hrel, hx⟩) | ⟨rel, hrel, hx⟩)
        · exact Or.inl hx
        · refine Or.inr (Or.inl ⟨n :: rel, ⟨rel, hrel, rfl⟩, ?_⟩)
          simpa [List.append_assoc] using hx
        · exact Or.inr (Or.inr ⟨rel, hrel, hx⟩)
      · rintro (hx | (⟨rel, ⟨q, hq, rfl⟩, hx⟩ | ⟨rel, hrel, hx⟩))
        · exact Or.inl (Or.inl hx)
        · refine Or.inl (Or.inr ⟨q, hq, ?_⟩)
          simpa [List.append_assoc] using hx
        · exact Or.inr ⟨rel, hrel, hx⟩

end

theorem nodup_insertPath (out : List (List String)) (y : List String)
    (h : out.Nodup) : (insertPath out y).Nodup := by
  unfold insertPath
  by_cases hm : y ∈ out
  · simpa [if_pos hm] using h
  · simp [if_neg hm, List.nodup_append, h, hm]

mutual

theorem nodup_list_files (e : FsEntry) :
    ∀ (p : List String) (out : List (List String)),
      out.Nodup → (list_files p e out).Nodup := by
  match e with
  | .file => intro p out h; simpa [list_files] using h
  | .dir es => exact fun p => nodup_walk_entries es p

theorem nodup_walk_entries (es : List (String × FsEntry)) :
    ∀ (p : List String) (out : List (List String)),
      out.Nodup → (walk_entries p es out).Nodup := by
  match es with
  | [] => intro p out h; simpa [walk_entries] using h
  | (n, .file) :: rest =>
      intro p out h
      exact nodup_walk_entries rest p _ (nodup_insertPath out _ h)
  | (n, .dir cs) :: rest =>
      intro p out h
      have h1 := nodup_list_files (.dir cs) (p ++ [n]) out h
      exact nodup_walk_entries rest p _ h1

end

theorem isFilePath_cons (c : String × FsEntry) (es : List (String × FsEntry))
    (rel : List String) (h : IsFilePath (.dir es) rel) :
    IsFilePath (.dir (c :: es)) rel := by
  cases h with
  | here hm => exact .here (List.mem_cons_of_mem _ hm)
  | there hm hr => exact .there (List.mem_cons_of_mem _ hm) hr

mutual

theorem mem_filesAt_iff (e : FsEntry) (rel : List String) :
    rel ∈ filesAt e ↔ IsFilePath e rel := by
  match e with
  | .file =>
      simp only [filesAt, List.not_mem_nil, false_iff]
      intro h
      cases h
  | .dir es => exact mem_filesAtEntries_iff es rel

theorem mem_filesAtEntries_iff (es : List (String × FsEntry)) (rel : List String) :
    rel ∈ filesAtEntries es ↔ IsFilePath (.dir es) rel := by
  match es with
  | [] =>
      simp only [filesAtEntries, List.not_mem_nil, false_iff]
      intro h
      cases h with
      | here hm => exact absurd hm (List.not_mem_nil _)
      | there hm hr => exact absurd hm (List.not_mem_nil _)
  | (n, .file) :: rest =>
      rw [filesAtEntries]
      constructor
      · intro h
        rcases List.mem_cons.mp h with rfl | h
        · exact .here (List.mem_cons_self _ _)
        · exact isFilePath_cons _ _ _ ((mem_filesAtEntries_iff rest rel).mp h)
      · intro h
        cases h with
        | here hm =>
            rcases List.mem_cons.mp hm with heq | hm
            · rw [Prod.mk.injEq] at heq
              simp [heq.1]
            · exact List.mem_cons_of_mem _
                ((mem_filesAtEntries_iff rest _).mpr (.here hm))
        | there hm hr =>
            rcases List.mem_cons.mp hm with heq | hm
            · rw [Prod.mk.injEq] at heq
              obtain ⟨-, rfl⟩ := heq
              cases hr
            · exact List.mem_cons_of_mem _
                ((mem_filesAtEntries_iff rest _).mpr (.there hm hr))
  | (n, .dir cs) :: rest =>
      rw [filesAtEntries]
      constructor
      · intro h
        rcases List.mem_append.mp h with h | h
        · rcases List.mem_map.mp h with ⟨q, hq, rfl⟩
          exact .there (List.mem_cons_self _ _) ((mem_filesAt_iff (.dir cs) q).mp hq)
        · exact isFilePath_cons _ _ _ ((mem_filesAtEntries_iff rest rel).mp h)
      · intro h
        cases h with
        | here hm =>
            rcases List.mem_cons.mp hm with heq | hm
            · exact absurd (Prod.mk.injEq .. ▸ heq).2 (by intro h; cases h)
            · exact List.mem_append.mpr (Or.inr
                ((mem_filesAtEntries_iff rest _).mpr (.here hm)))
        | there hm hr =>
            rcases List.mem_cons.mp hm with heq | hm
            · rw [Prod.mk.injEq] at heq
              obtain ⟨rfl, rfl⟩ := heq
              exact List.mem_append.mpr (Or.inl
                (List.mem_map.mpr ⟨_, (mem_filesAt_iff _ _).mpr hr, rfl⟩))
            · exact List.mem_append.mpr (Or.inr
                ((mem_filesAtEntries_iff rest _).mpr (.there hm hr)))

end

theorem splitLine_no_newline (l : List Char) (h : '\n' ∉ l) :
    splitLine l = (l, []) := by
  induction l with
  | nil => rfl
  | cons c rest ih =>
      have hc : c ≠ '\n' := fun hc => h (hc ▸ List.mem_cons_self c rest)
      have hr : '\n' ∉ rest := fun hr => h (List.mem_cons_of_mem c hr)
      simp [splitLine, hc, ih hr]

theorem splitLine_append (l r : List Char) (h : '\n' ∉ l) :
    splitLine (l ++ '\n' :: r) = (l ++ ['\n'], r) := by
  induction l with
  | nil => simp [splitLine]
  | cons c rest ih =>
      have hc : c ≠ '\n' := fun hc => h (hc ▸ List.mem_cons_self c rest)
      have hr : '\n' ∉ rest := fun hr => h (List.mem_cons_of_mem c hr)
      simp [splitLine, hc, ih hr]

theorem trimChars_append_ws (s : List Char) (c : Char)
    (hc : isRustWhitespace c = true) : trimChars (s ++ [c]) = trimChars s := by
  unfold trimChars
  rw [List.dropWhile_append]
  by_cases h : (s.dropWhile isRustWhitespace).isEmpty
  · simp only [if_pos h, List.dropWhile_cons, hc, if_pos, List.dropWhile_nil]
    rw [List.isEmpty_iff] at h
    simp [h, List.dropWhile, hc]
  · simp only [if_neg h]
    rw [List.reverse_append]
    simp [List.dropWhile_cons, hc]

theorem strBytes_append (a b : String) :
    strBytes (a ++ b) = strBytes a ++ strBytes b := by
  show (a.data ++ b.data).flatMap charUtf8 = _
  rw [List.flatMap_append]
  rfl

theorem fromBeAux_toBeBytes (w : Nat) : ∀ (acc n : Nat),
    fromBeAux acc (toBeBytes w n) = acc * 256 ^ w + n % 256 ^ w := by
  induction w with
  | zero => intro acc n; simp [toBeBytes, fromBeAux, Nat.mod_one]
  | succ w ih =>
      intro acc n
      simp only [toBeBytes, fromBeAux]
      rw [ih]
      have h : 256 ^ (w + 1) = 256 ^ w * 256 := by ring
      rw [h, Nat.mod_mul]
      ring

theorem toBeBytes_length (w n : Nat) : (toBeBytes w n).length = w := by
  induction w generalizing n with
  | zero => simp [toBeBytes]
  | succ w ih => simp [toBeBytes, ih]

theorem fromBe_toBeBytes_eight (n : Nat) (h : n < 2 ^ 64) :
    fromBe (toBeBytes 8 n) = n := by
  have h8 : (256 : Nat) ^ 8 = 2 ^ 64 := by norm_num
  rw [fromBe, fromBeAux_toBeBytes, h8]
  simpa using Nat.mod_eq_of_lt h

theorem entrySize_pos (e : FsEntry) : 1 ≤ entrySize e := by
  match e with
  | .file => simp [entrySize]
  | .dir es => simp [entrySize]

theorem entriesSize_pos (es : List (String × FsEntry)) : 1 ≤ entriesSize es := by
  match es with
  | [] => simp [entriesSize]
  | (n, e) :: rest => simp [entriesSize]

theorem fuel_adequate (fuel : Nat) :
    (∀ (e : FsEntry) (p : List String) (out : List (List String)),
      entrySize e ≤ fuel → list_files_fuel fuel p e out = some (list_files p e out)) ∧
    (∀ (es : List (String × FsEntry)) (p : List String) (out : List (List String)),
      entriesSize es ≤ fuel →
      walk_entries_fuel fuel p es out = some (walk_entries p es out)) := by
  induction fuel with
  | zero =>
      constructor
      · intro e p out h
        exact absurd h (by have := entrySize_pos e; omega)
      · intro es p out h
        exact absurd h (by have := entriesSize_pos es; omega)
  | succ fuel ih =>
      constructor
      · intro e p out h
        match e with
        | .file => rfl
        | .dir es =>
            have hs : entriesSize es ≤ fuel := by
              rw [entrySize] at h; omega
            show walk_entries_fuel fuel p es out = some (list_files p (.dir es) out)
            rw [ih.2 es p out hs]
            rfl
      · intro es p out h
        match es with
        | [] => rfl
        | (n, .file) :: rest =>
            have hs : entriesSize rest ≤ fuel := by
              rw [entriesSize] at h
              have := entrySize_pos FsEntry.file
              omega
            show walk_entries_fuel fuel p rest (insertPath out ((p ++ [n]).drop 2)) =
              some (walk_entries p ((n, .file) :: rest) out)
            rw [ih.2 rest p _ hs]
            rfl
        | (n, .dir cs) :: rest =>
            have h1 : entrySize (.dir cs) ≤ fuel := by
              rw [entriesSize] at h
              have := entriesSize_pos rest
              omega
            have h2 : entriesSize rest ≤ fuel := by
              rw [entriesSize] at h
              have := entrySize_pos (FsEntry.dir cs)
              omega
            show (match list_files_fuel fuel (p ++ [n]) (.dir cs) out with
              | none => none
              | some out' => walk_entries_fuel fuel p rest out') =
              some (walk_entries p ((n, .dir cs) :: rest) out)
            rw [ih.1 (.dir cs) (p ++ [n]) out h1]
            show walk_entries_fuel fuel p rest (list_files (p ++ [n]) (.dir cs) out) =
              some (walk_entries p ((n, .dir cs) :: rest) out)
            rw [ih.2 rest p _ h2]
            rfl

/-- C1 (amended): an Exists request never fails, and the full response is one
single byte, the flag that is 1 iff a filesystem entry exists at the resolved
path; for an absent path the full response is exactly the one byte 0x00. -/
theorem exists_request_single_byte (fs : Fs) (rest : List Char) :
    process_request fs (some 0) rest =
      .ok [if fs.exists_at (resolvePath (splitLine rest).1) then 1 else 0] ∧
    handle_connection fs (some 0) rest =
      [if fs.exists_at (resolvePath (splitLine rest).1) then 1 else 0] ∧
    (handle_connection fs (some 0) rest = [1] ↔
      fs.exists_at (resolvePath (splitLine rest).1) = true) := by
  refine ⟨rfl, rfl, ?_⟩
  by_cases h : fs.exists_at (resolvePath (splitLine rest).1)
  · simp [handle_connection, process_request, h]
  · simp [handle_connection, process_request, h]

/-- C1 counterexample: for an absent path the full Exists response is the
single byte 0x00, not the two bytes 0x00 0x00 the claim requires. -/
theorem exists_request_counterexample :
    handle_connection fsAbsent (some 0) "missing.txt\n".data = [0] ∧
    handle_connection fsAbsent (some 0) "missing.txt\n".data ≠ [0, 0] := by
  exact ⟨rfl, by decide⟩

/-- C2 counterexample: a stream holding only the operation byte (connection
closed before any newline-terminated path line) is not rejected: decoding
succeeds, the empty path is processed, and the response is the success flag
byte 0x00, not a status-1 error response. -/
theorem truncated_line_counterexample :
    process_request fsAbsent (some 0) [] = .ok [0] ∧
    handle_connection fsAbsent (some 0) [] = [0] ∧
    (handle_connection fsAbsent (some 0) []).head? ≠ some 1 := by
  exact ⟨rfl, rfl, by decide⟩

/-- C2 (amended): only a stream that closes before the single operation byte
fails decoding and produces a status-1 error response; a stream that ends
before the path newline is not an error — `read_line` returns the partial
(possibly empty) text and the request is processed with that partial path. -/
theorem truncated_line_processed (fs : Fs) (rest : List Char) (h : '\n' ∉ rest) :
    process_request fs (some 0) rest =
      .ok [if fs.exists_at (resolvePath rest) then 1 else 0] ∧
    process_request fs none rest = .error .eofOpByte ∧
    handle_connection fs none rest =
      1 :: (toBeBytes 8 (errorBytes .eofOpByte).length ++ errorBytes .eofOpByte) := by
  refine ⟨?_, rfl, rfl⟩
  have hs := splitLine_no_newline rest h
  simp [process_request, hs]

/-- C2 witness: concrete application of the amended theorem. -/
theorem truncated_line_processed_witness :
    ('\n' ∉ "missing".data) ∧
    process_request fsAbsent (some 0) "missing".data =
      .ok [if fsAbsent.exists_at (resolvePath "missing".data) then 1 else 0] :=
  ⟨by decide, (truncated_line_processed fsAbsent "missing".data (by decide)).1⟩

/-- C3: a Read request on a readable file responds with status byte 0, an
8-byte big-endian length equal to the file's byte count, then the contents
byte for byte; a failed filesystem read is propagated and the client gets an
error frame instead of any partial payload. -/
theorem read_request_exact (fs : Fs) (rest : List Char) :
    (∀ buffer : List Nat,
      fs.read (resolvePath (splitLine rest).1) = .ok buffer →
      buffer.length < 2 ^ 64 →
      handle_connection fs (some 1) rest =
        0 :: (toBeBytes 8 buffer.length ++ buffer) ∧
      fromBe (((handle_connection fs (some 1) rest).drop 1).take 8) = buffer.length ∧
      ((handle_connection fs (some 1) rest).drop 1).drop 8 = buffer) ∧
    (∀ err : List Nat,
      fs.read (resolvePath (splitLine rest).1) = .error err →
      handle_connection fs (some 1) rest = write_error_to_stream err) := by
  constructor
  · intro buffer hok hlen
    have hresp : handle_connection fs (some 1) rest =
        0 :: (toBeBytes 8 buffer.length ++ buffer) := by
      simp [handle_connection, process_request, hok]
    have h8 : (toBeBytes 8 buffer.length).length = 8 := toBeBytes_length 8 _
    refine ⟨hresp, ?_, ?_⟩
    · rw [hresp]
      simp only [List.drop_succ_cons, List.drop_zero]
      rw [List.take_left' h8]
      exact fromBe_toBeBytes_eight _ hlen
    · rw [hresp]
      simp only [List.drop_succ_cons, List.drop_zero]
      rw [List.drop_left' h8]
  · intro err herr
    simp [handle_connection, process_request, herr, errorBytes]

/-- C3 witness: concrete application on a 3-byte file and on an absent file. -/
theorem read_request_exact_witness :
    fsSample.read (resolvePath (splitLine "data/unit.bin\n".data).1) = .ok [7, 7, 7] ∧
    handle_connection fsSample (some 1) "data/unit.bin\n".data =
      0 :: (toBeBytes 8 ([7, 7, 7] : List Nat).length ++ [7, 7, 7]) ∧
    handle_connection fsAbsent (some 1) "data/unit.bin\n".data =
      write_error_to_stream (strBytes "No such file or directory (os error 2)") :=
  ⟨rfl,
   (((read_request_exact fsSample "data/unit.bin\n".data).1) [7, 7, 7] rfl
      (by decide)).1,
   ((read_request_exact fsAbsent "data/unit.bin\n".data).2) _ rfl⟩

/-- C4: the walker returns exactly the regular-file paths beneath the walked
directory, each rendered as the absolute walked path with its first two
components dropped; the output has no duplicates; and a nonexistent or
non-directory root yields the empty output rather than an error. -/
theorem list_walker_characterisation (p : List String) (root : Option FsEntry) :
    (∀ x, x ∈ list_files_root p root ↔
      ∃ e rel, root = some e ∧ IsFilePath e rel ∧ x = (p ++ rel).drop 2) ∧
    (list_files_root p root).Nodup ∧
    list_files_root p none = [] ∧
    list_files_root p (some .file) = [] := by
  refine ⟨?_, ?_, rfl, rfl⟩
  · intro x
    match root with
    | none => simp [list_files_root]
    | some e =>
        rw [list_files_root]
        rw [mem_list_files]
        simp only [List.not_mem_nil, false_or]
        constructor
        · rintro ⟨rel, hrel, hx⟩
          exact ⟨e, rel, rfl, (mem_filesAt_iff e rel).mp hrel, hx⟩
        · rintro ⟨e', rel, heq, hrel, hx⟩
          cases heq
          exact ⟨rel, (mem_filesAt_iff _ rel).mpr hrel, hx⟩
  · match root with
    | none => simp [list_files_root]
    | some e => exact nodup_list_files e p [] List.nodup_nil

/-- C5: the resolved request path is exactly the fixed root prefix joined to
the trimmed, separator-normalised client path, and no other normalisation
happens: any `..` occurrence in the joined text survives into the resolved
path. -/
theorem resolve_path_formula (line : List Char) :
    resolvePath line = "rom:/Data/" ++ String.mk (replaceBackslash (trimChars line)) ∧
    (∀ l r, replaceBackslash (trimChars line) = l ++ '.' :: '.' :: r →
      ∃ l', (resolvePath line).data = l' ++ '.' :: '.' :: r) := by
  refine ⟨rfl, ?_⟩
  intro l r h
  refine ⟨"rom:/Data/".data ++ l, ?_⟩
  have hd : (resolvePath line).data =
      "rom:/Data/".data ++ replaceBackslash (trimChars line) := rfl
  rw [hd, h, ← List.append_assoc]

/-- C5 witness: a path line carrying a `..` traversal segment keeps it in the
resolved path. -/
theorem resolve_path_formula_witness :
    (replaceBackslash (trimChars " ..\\x\n".data) = [] ++ '.' :: '.' :: "/x".data) ∧
    ∃ l', (resolvePath " ..\\x\n".data).data = l' ++ '.' :: '.' :: "/x".data :=
  ⟨by decide, (resolve_path_formula " ..\\x\n".data).2 [] "/x".data (by decide)⟩

/-- C6 counterexample: a path line ending in a carriage return and newline
loses the carriage return — `trim` strips it, so it is not preserved in the
text joined under the root. -/
theorem carriage_return_counterexample :
    resolvePath "foo\r\n".data = "rom:/Data/foo" ∧
    '\r' ∉ (resolvePath "foo\r\n".data).data := by
  exact ⟨rfl, by decide⟩

/-- C6 (amended): the path line is taken up to and including the newline, and
the whitespace trim then strips a trailing carriage return along with the
newline: a line ending CR LF resolves identically to one ending LF alone, and
to the same text with no terminator at all. -/
theorem carriage_return_stripped (s : List Char) :
    resolvePath (s ++ ['\r', '\n']) = resolvePath (s ++ ['\n']) ∧
    resolvePath (s ++ ['\r', '\n']) = resolvePath s := by
  have h1 : trimChars (s ++ ['\r', '\n']) = trimChars s := by
    have e1 : s ++ ['\r', '\n'] = (s ++ ['\r']) ++ ['\n'] := by simp
    rw [e1, trimChars_append_ws _ '\n' (by decide),
      trimChars_append_ws _ '\r' (by decide)]
  have h2 : trimChars (s ++ ['\n']) = trimChars s :=
    trimChars_append_ws _ '\n' (by decide)
  unfold resolvePath
  rw [h1, h2]
  exact ⟨rfl, rfl⟩

/-- C7: an operation byte outside 0, 1, 2 is rejected before touching the
filesystem: the request fails with the unknown-operation error, the client
receives a status-1 frame whose length-prefixed message names the operation
code, the outcome is identical for every filesystem, and the accept loop goes
on to serve the remaining connections. -/
theorem unknown_operation_rejected (fs fs' : Fs) (op : Nat) (rest : List Char)
    (more : List (Option Nat × List Char))
    (h0 : op ≠ 0) (h1 : op ≠ 1) (h2 : op ≠ 2) :
    process_request fs (some op) rest = .error (.unknownOperation op) ∧
    handle_connection fs (some op) rest =
      1 :: (toBeBytes 8 (strBytes "Unknown operation " ++ strBytes (toString op)).length ++
        (strBytes "Unknown operation " ++ strBytes (toString op))) ∧
    errorBytes (.unknownOperation op) ≠ [] ∧
    process_request fs (some op) rest = process_request fs' (some op) rest ∧
    serve fs ((some op, rest) :: more) =
      write_error_to_stream (errorBytes (.unknownOperation op)) :: serve fs more := by
  obtain ⟨k, rfl⟩ : ∃ k, op = k + 3 := ⟨op - 3, by omega⟩
  have hmsg : errorBytes (.unknownOperation (k + 3)) =
      strBytes "Unknown operation " ++ strBytes (toString (k + 3)) := by
    rw [errorBytes, strBytes_append]
  have hproc : process_request fs (some (k + 3)) rest =
      .error (.unknownOperation (k + 3)) := rfl
  refine ⟨hproc, ?_, ?_, rfl, ?_⟩
  · show write_error_to_stream (errorBytes (.unknownOperation (k + 3))) = _
    rw [hmsg]
    rfl
  · rw [hmsg]
    intro hcontra
    have hnil : strBytes "Unknown operation " = [] :=
      (List.append_eq_nil.mp hcontra).1
    exact absurd hnil (by decide)
  · show handle_connection fs (some (k + 3)) rest :: serve fs more = _
    rw [show handle_connection fs (some (k + 3)) rest =
      write_error_to_stream (errorBytes (.unknownOperation (k + 3))) from rfl]

/-- C7 witness: concrete application at operation byte 7. -/
theorem unknown_operation_rejected_witness :
    process_request fsAbsent (some 7) "x\n".data = .error (.unknownOperation 7) ∧
    process_request fsAbsent (some 7) "x\n".data =
      process_request fsSample (some 7) "x\n".data ∧
    serve fsAbsent [(some 7, "x\n".data), (some 0, "y\n".data)] =
      write_error_to_stream (errorBytes (.unknownOperation 7)) ::
        serve fsAbsent [(some 0, "y\n".data)] := by
  have h := unknown_operation_rejected fsAbsent fsSample 7 "x\n".data
    [(some 0, "y\n".data)] (by decide) (by decide) (by decide)
  exact ⟨h.1, h.2.2.2.1, h.2.2.2.2⟩

/-- C8: the error frame is the status byte 1, the 8-byte big-endian length of
the message bytes, then exactly those bytes; a client decoding by the length
prefix recovers the message exactly, with nothing left over. -/
theorem error_frame_roundtrip (msg : List Nat) (h : msg.length < 2 ^ 64) :
    write_error_to_stream msg = 1 :: (toBeBytes 8 msg.length ++ msg) ∧
    (toBeBytes 8 msg.length).length = 8 ∧
    fromBe (toBeBytes 8 msg.length) = msg.length ∧
    decode_error_response (write_error_to_stream msg) = some (msg, []) := by
  have h8 : (toBeBytes 8 msg.length).length = 8 := toBeBytes_length 8 _
  refine ⟨rfl, h8, fromBe_toBeBytes_eight _ h, ?_⟩
  have htake : (toBeBytes 8 msg.length ++ msg).take 8 = toBeBytes 8 msg.length :=
    List.take_left' h8
  have hdrop : (toBeBytes 8 msg.length ++ msg).drop 8 = msg :=
    List.drop_left' h8
  have hlen : 8 ≤ (toBeBytes 8 msg.length ++ msg).length := by
    simp [h8]
  show decode_error_response (1 :: (toBeBytes 8 msg.length ++ msg)) = _
  rw [decode_error_response]
  rw [if_pos ⟨rfl, hlen⟩]
  simp only [htake, hdrop, fromBe_toBeBytes_eight _ h]
  rw [if_pos (le_refl msg.length)]
  rw [List.take_length, List.drop_length]

/-- C8 witness: concrete round trip of a short message. -/
theorem error_frame_roundtrip_witness :
    ((strBytes "boom").length < 2 ^ 64) ∧
    decode_error_response (write_error_to_stream (strBytes "boom")) =
      some (strBytes "boom", []) :=
  ⟨by decide, (error_frame_roundtrip (strBytes "boom") (by decide)).2.2.2⟩

/-- C9: the List response is independent of the glob line — for one path line
and any two globs the whole request outcome is identical, because the glob is
only read and logged, never used to filter, and the walker runs on the
resolved directory path alone. -/
theorem glob_ignored (fs : Fs) (pathLine glob1 glob2 : List Char)
    (h : '\n' ∉ pathLine) :
    process_request fs (some 2) (pathLine ++ '\n' :: glob1) =
      process_request fs (some 2) (pathLine ++ '\n' :: glob2) := by
  have h1 := splitLine_append pathLine glob1 h
  have h2 := splitLine_append pathLine glob2 h
  simp [process_request, h1, h2]

/-- C9 witness: two different glob lines over the same directory produce the
same response. -/
theorem glob_ignored_witness :
    ('\n' ∉ "units".data) ∧
    process_request fsSample (some 2) ("units".data ++ '\n' :: "*.bin\n".data) =
      process_request fsSample (some 2) ("units".data ++ '\n' :: "*.txt\n".data) :=
  ⟨by decide, glob_ignored fsSample "units".data "*.bin\n".data "*.txt\n".data
    (by decide)⟩

/-- C10: the recursive directory walk terminates on every finite tree: the
fuel-instrumented copy of the recursion, given at least `entrySize e` fuel,
completes and agrees with the recursively defined walker. -/
theorem list_files_terminates (e : FsEntry) (p : List String)
    (out : List (List String)) (fuel : Nat) (h : entrySize e ≤ fuel) :
    list_files_fuel fuel p e out = some (list_files p e out) :=
  (fuel_adequate fuel).1 e p out h

/-- C10 witness: the sample tree of size 9 completes within fuel 9. -/
theorem list_files_terminates_witness :
    entrySize sampleTree ≤ 9 ∧
    list_files_fuel 9 ["rom:", "Data", "units"] sampleTree [] =
      some (list_files ["rom:", "Data", "units"] sampleTree []) :=
  ⟨by decide, list_files_terminates sampleTree ["rom:", "Data", "units"] [] 9
    (by decide)⟩

end Astra
